import Mathlib

/-!
Shallow embedding of the two Streamlit scripts of bitcoin100kk/investment
(`src/interactive_chart.py` and `src/interactive_chart2.py`).

Python float arithmetic is modelled by exact rational arithmetic (`ℚ`).
Pandas annual series are modelled as association lists from calendar year
(`ℤ`) to value (`ℚ`); pandas `Index.union` is the sorted deduplicated union
of the two label lists, `Series.reindex(idx, fill_value=0)` is a label
lookup defaulting to `0`, and `sort_index` is a sort on the year key.
The network layer is modelled only through the quantities the verified
properties mention: the computed sleep durations of the retry loop, and the
number of per-ticker lookups a run performs (one `get_annual_returns` /
`get_crypto_annual_returns` call, hence one `fetch_history` call, per
allocation triple that reaches the combination loop).
-/

/-- One row of the output of `calculate_balances`: the five per-year values
appended to `balances`, `withdrawals`, `percentage_changes`,
`dividend_yields_usd` and `total_withdrawals_and_dividends`. -/
structure YearRec where
  balance : ℚ
  withdrawal : ℚ
  pctChange : ℚ
  dividend : ℚ
  total : ℚ
  deriving DecidableEq

/-- Step 3 ("Adjust balance") of `calculate_balances` in
`src/interactive_chart.py` (lines 36-41): when dividends are reinvested the
withdrawal is subtracted and the dividend added; otherwise only the
withdrawal is subtracted. -/
def adjustBalance (reinvest : Bool) (balance withdrawal dividend : ℚ) : ℚ :=
  if reinvest then balance - withdrawal + dividend else balance - withdrawal

/-- Step 3 ("Adjust the balance") of `calculate_balances` in
`src/interactive_chart2.py` (lines 37-41): when dividends are reinvested the
withdrawal is subtracted and the dividend added; otherwise the withdrawal
*and* the dividend are both subtracted (`balance -= (withdrawal + dividend_yield_usd)`). -/
def adjustBalance2 (reinvest : Bool) (balance withdrawal dividend : ℚ) : ℚ :=
  if reinvest then balance - withdrawal + dividend else balance - (withdrawal + dividend)

/-- One iteration of the `for i in range(len(annual_returns))` loop of
`calculate_balances`, parametrised by the balance-adjustment step (the only
line on which the two scripts differ).  `first` is `i == 0`.  The steps, in
source order: dividend in USD, withdrawal (skipped in the first year),
balance adjustment, total tracking, return application, and the
`prev_balance != 0`-guarded percentage change. -/
def simStep (adjust : Bool → ℚ → ℚ → ℚ → ℚ) (withdrawal_rate : ℚ)
    (reinvest first : Bool) (balance annual_return dividend_yield : ℚ) : YearRec :=
  let dividend_yield_usd := balance * (dividend_yield / 100)
  let withdrawal := if first then 0 else balance * (withdrawal_rate / 100)
  let adjusted := adjust reinvest balance withdrawal dividend_yield_usd
  let total := withdrawal + (if reinvest then 0 else dividend_yield_usd)
  let prev_balance := adjusted
  let new_balance := adjusted * (1 + annual_return / 100)
  let percentage_change :=
    if prev_balance ≠ 0 then (new_balance - prev_balance) / prev_balance * 100 else 0
  ⟨new_balance, withdrawal, percentage_change, dividend_yield_usd, total⟩

/-- The loop of `calculate_balances`, running over the (return, yield) pair
of each selected year; the running balance entering the next iteration is
the balance just appended to `balances`. -/
def simRun (adjust : Bool → ℚ → ℚ → ℚ → ℚ) (withdrawal_rate : ℚ) (reinvest : Bool) :
    Bool → ℚ → List (ℚ × ℚ) → List YearRec
  | _, _, [] => []
  | first, balance, (r, d) :: rest =>
    simStep adjust withdrawal_rate reinvest first balance r d ::
      simRun adjust withdrawal_rate reinvest false
        (simStep adjust withdrawal_rate reinvest first balance r d).balance rest

/-- `calculate_balances` of `src/interactive_chart.py` (lines 11-55).  The
Python loop reads `annual_returns[i]` and `dividend_yields[i]` for each
`i < len(annual_returns)`; in the script both lists are slices of the same
yearly index and have equal length, under which the loop is exactly the
recursion over the zipped lists. -/
def calculate_balances (initial_investment withdrawal_rate : ℚ)
    (annual_returns dividend_yields : List ℚ) (reinvest_dividends : Bool) : List YearRec :=
  simRun adjustBalance withdrawal_rate reinvest_dividends true initial_investment
    (annual_returns.zip dividend_yields)

/-- `calculate_balances` of `src/interactive_chart2.py` (lines 9-65); it
differs from the `interactive_chart.py` version only in the non-reinvest
branch of the balance adjustment. -/
def calculate_balances2 (initial_investment withdrawal_rate : ℚ)
    (annual_returns dividend_yields : List ℚ) (reinvest_dividends : Bool) : List YearRec :=
  simRun adjustBalance2 withdrawal_rate reinvest_dividends true initial_investment
    (annual_returns.zip dividend_yields)

/-- `base = 1.5 ** attempt` plus the jitter `random.random()`
(`src/interactive_chart.py` lines 86-87), with the jitter an explicit
parameter in `[0, 1)`. -/
def backoffBase (attempt : ℕ) (jitter : ℚ) : ℚ := (3 / 2) ^ attempt + jitter

/-- `sleep_s = min(30.0, base + random.random())` (line 87): the delay slept
after a non-rate-limited failure. -/
def sleepTransient (attempt : ℕ) (jitter : ℚ) : ℚ := min 30 (backoffBase attempt jitter)

/-- `sleep_s = min(60.0, sleep_s * 2.0)` (line 90): the delay slept after a
rate-limited failure. -/
def sleepRateLimited (attempt : ℕ) (jitter : ℚ) : ℚ := min 60 (sleepTransient attempt jitter * 2)

/-! ### Generic facts about the simulator loop -/

/-- The loop emits one record per input year. -/
theorem simRun_length (f : Bool → ℚ → ℚ → ℚ → ℚ) (rate : ℚ) (rv : Bool) :
    ∀ (l : List (ℚ × ℚ)) (first : Bool) (bal : ℚ),
      (simRun f rate rv first bal l).length = l.length := by
  intro l
  induction l with
  | nil => intro first bal; rfl
  | cons p rest ih =>
    intro first bal
    obtain ⟨r, d⟩ := p
    simp [simRun, ih]

/-- The first record's withdrawal is `0` when `first` is set, else
proportional to the entering balance. -/
theorem simRun_get_zero_withdrawal (f : Bool → ℚ → ℚ → ℚ → ℚ) (rate : ℚ)
    (rv first : Bool) (bal : ℚ) (l : List (ℚ × ℚ))
    (h : 0 < (simRun f rate rv first bal l).length) :
    ((simRun f rate rv first bal l).get ⟨0, h⟩).withdrawal
      = if first then 0 else bal * (rate / 100) := by
  cases l with
  | nil => simp [simRun] at h
  | cons p rest =>
    obtain ⟨r, d⟩ := p
    simp [simRun, simStep]

/-- Each later record's withdrawal is the previous record's balance times
`rate / 100`. -/
theorem simRun_withdrawal_succ (f : Bool → ℚ → ℚ → ℚ → ℚ) (rate : ℚ) (rv : Bool) :
    ∀ (l : List (ℚ × ℚ)) (first : Bool) (bal : ℚ) (i : ℕ)
      (h : i + 1 < (simRun f rate rv first bal l).length),
      ((simRun f rate rv first bal l).get ⟨i + 1, h⟩).withdrawal
        = ((simRun f rate rv first bal l).get ⟨i, Nat.lt_of_succ_lt h⟩).balance * (rate / 100) := by
  intro l
  induction l with
  | nil => intro first bal i h; simp [simRun] at h
  | cons p rest ih =>
    intro first bal i h
    obtain ⟨r, d⟩ := p
    cases i with
    | zero =>
      cases rest with
      | nil => simp [simRun] at h
      | cons q rest2 =>
        obtain ⟨r2, d2⟩ := q
        simp [simRun, simStep]
    | succ n =>
      have h' : n + 1 < (simRun f rate rv false
          (simStep f rate rv first bal r d).balance rest).length := by
        simpa [simRun] using h
      simpa [simRun] using ih false (simStep f rate rv first bal r d).balance n h'

/-- With a zero withdrawal rate and reinvestment on, every emitted total is zero,
for either variant of the balance adjustment. -/
theorem simRun_rate_zero_totals (f : Bool → ℚ → ℚ → ℚ → ℚ) :
    ∀ (l : List (ℚ × ℚ)) (first : Bool) (bal : ℚ),
      (simRun f 0 true first bal l).map YearRec.total = List.replicate l.length 0 := by
  intro l
  induction l with
  | nil => intro first bal; rfl
  | cons p rest ih =>
    intro first bal
    obtain ⟨r, d⟩ := p
    simp [simRun, simStep, ih, List.replicate_succ]

/-- Two adjustment functions that agree at the given reinvest flag produce
identical runs. -/
theorem simRun_congr_adjust (f g : Bool → ℚ → ℚ → ℚ → ℚ) (rate : ℚ) (rv : Bool)
    (hfg : ∀ b w d : ℚ, f rv b w d = g rv b w d) :
    ∀ (l : List (ℚ × ℚ)) (first : Bool) (bal : ℚ),
      simRun f rate rv first bal l = simRun g rate rv first bal l := by
  intro l
  induction l with
  | nil => intro first bal; rfl
  | cons p rest ih =>
    intro first bal
    obtain ⟨r, d⟩ := p
    have hstep : simStep f rate rv first bal r d = simStep g rate rv first bal r d := by
      simp only [simStep, hfg]
    simp only [simRun, hstep, ih]

/-! ### Claim theorems: balance simulator -/

/-- C1 (counterexample): in `interactive_chart2.py` the non-reinvest balance
adjustment does subtract the dividend: with prior balance 100000, withdrawal
0 and dividend 2000 the adjusted balance is 98000, not 100000 − 0, and the
balance which return application multiplies is accordingly not
(prior − withdrawal). -/
theorem c1_nonreinvest_cx :
    adjustBalance2 false 100000 0 2000 ≠ 100000 - 0 ∧
    (simStep adjustBalance2 4 false true 100000 10 2).balance ≠ (100000 - 0) * (1 + 10 / 100) := by
  constructor <;> norm_num [adjustBalance2, simStep]

/-- C1 (amended): in `interactive_chart.py` the non-reinvest adjustment
subtracts only the withdrawal, so the balance entering return application is
the prior balance minus the withdrawal; in `interactive_chart2.py` the
dividend is subtracted as well (B ← B − (withdrawal + dividend)). -/
theorem c1_nonreinvest_adjust (balance withdrawal dividend : ℚ) :
    adjustBalance false balance withdrawal dividend = balance - withdrawal ∧
    adjustBalance2 false balance withdrawal dividend = balance - (withdrawal + dividend) ∧
    ∀ (rate annual_return dividend_yield : ℚ) (first : Bool),
      (simStep adjustBalance rate false first balance annual_return dividend_yield).balance
        = (balance - (if first then 0 else balance * (rate / 100))) * (1 + annual_return / 100) := by
  refine ⟨rfl, rfl, fun rate r d first => ?_⟩
  simp [simStep, adjustBalance]

/-- C2 (counterexample): on the single-year scenario
(initial 100000, rate 4, reinvest false, return 10, yield 2)
`interactive_chart.py` produces final balance 110000 (not 107800), and
`interactive_chart2.py` produces pct_change 10 (not 7.8): the percentage
change is measured against the post-adjustment balance 98000, not the
initial balance. -/
theorem c2_scenario_cx :
    (calculate_balances 100000 4 [10] [2] false).map YearRec.balance = [110000] ∧
    (calculate_balances2 100000 4 [10] [2] false).map YearRec.pctChange = [10] ∧
    (110000 : ℚ) ≠ 107800 ∧ (10 : ℚ) ≠ 78 / 10 := by
  refine ⟨?_, ?_, by norm_num, by norm_num⟩ <;>
    norm_num [calculate_balances, calculate_balances2, simRun, simStep, adjustBalance, adjustBalance2]

/-- C2 (amended): on the scenario, `interactive_chart2.py` yields dividend
2000, withdrawal 0, post-adjustment balance 98000, final balance 107800 and
pct_change 10; `interactive_chart.py` does not subtract the paid-out
dividend, yielding final balance 110000 and pct_change 10. -/
theorem c2_scenario_values :
    calculate_balances2 100000 4 [10] [2] false = [⟨107800, 0, 10, 2000, 2000⟩] ∧
    adjustBalance2 false 100000 0 2000 = 98000 ∧
    calculate_balances 100000 4 [10] [2] false = [⟨110000, 0, 10, 2000, 2000⟩] := by
  refine ⟨?_, by norm_num [adjustBalance2], ?_⟩ <;>
    norm_num [calculate_balances, calculate_balances2, simRun, simStep, adjustBalance, adjustBalance2]

/-- C3 (counterexample): the two `calculate_balances` implementations are not
equivalent: with initial balance 100, rate 0, one year of return 0 and
dividend yield 100, and reinvestment off, `interactive_chart.py` ends the
year at balance 100 while `interactive_chart2.py` ends it at 0. -/
theorem c3_equivalence_cx :
    calculate_balances 100 0 [0] [100] false ≠ calculate_balances2 100 0 [0] [100] false := by
  norm_num [calculate_balances, calculate_balances2, simRun, simStep, adjustBalance, adjustBalance2]

/-- C3 (amended): the two implementations agree whenever
`reinvest_dividends` is true (they differ only in the non-reinvest branch of
the balance adjustment, where `interactive_chart2.py` also subtracts the
dividend). -/
theorem c3_reinvest_equivalence (init rate : ℚ) (rets divs : List ℚ) :
    calculate_balances init rate rets divs true = calculate_balances2 init rate rets divs true := by
  unfold calculate_balances calculate_balances2
  exact simRun_congr_adjust adjustBalance adjustBalance2 rate true
    (fun b w d => rfl) (rets.zip divs) true init

/-- C5: in both implementations the first emitted withdrawal is 0 regardless
of the rate, and every later withdrawal equals the running balance entering
that year (the previous record's balance) times `withdrawal_rate / 100`. -/
theorem c5_withdrawal_schedule (init rate : ℚ) (rets divs : List ℚ) (rv : Bool) :
    (∀ h0 : 0 < (calculate_balances init rate rets divs rv).length,
      ((calculate_balances init rate rets divs rv).get ⟨0, h0⟩).withdrawal = 0) ∧
    (∀ (i : ℕ) (h : i + 1 < (calculate_balances init rate rets divs rv).length),
      ((calculate_balances init rate rets divs rv).get ⟨i + 1, h⟩).withdrawal
        = ((calculate_balances init rate rets divs rv).get
            ⟨i, Nat.lt_of_succ_lt h⟩).balance * (rate / 100)) ∧
    (∀ h0 : 0 < (calculate_balances2 init rate rets divs rv).length,
      ((calculate_balances2 init rate rets divs rv).get ⟨0, h0⟩).withdrawal = 0) ∧
    (∀ (i : ℕ) (h : i + 1 < (calculate_balances2 init rate rets divs rv).length),
      ((calculate_balances2 init rate rets divs rv).get ⟨i + 1, h⟩).withdrawal
        = ((calculate_balances2 init rate rets divs rv).get
            ⟨i, Nat.lt_of_succ_lt h⟩).balance * (rate / 100)) := by
  refine ⟨fun h0 => ?_, fun i h => ?_, fun h0 => ?_, fun i h => ?_⟩
  · simpa using simRun_get_zero_withdrawal adjustBalance rate rv true init (rets.zip divs) h0
  · exact simRun_withdrawal_succ adjustBalance rate rv (rets.zip divs) true init i h
  · simpa using simRun_get_zero_withdrawal adjustBalance2 rate rv true init (rets.zip divs) h0
  · exact simRun_withdrawal_succ adjustBalance2 rate rv (rets.zip divs) true init i h

/-- C5 (witness): for initial balance 100, rate 4, two years of return 10
and yield 0, without reinvestment: the first withdrawal is 0 and the second
equals the first year-end balance times 4/100. -/
theorem c5_withdrawal_schedule_w :
    ((calculate_balances 100 4 [10, 10] [0, 0] false).get
        ⟨0, by norm_num [calculate_balances, simRun]⟩).withdrawal = 0 ∧
    ((calculate_balances 100 4 [10, 10] [0, 0] false).get
        ⟨1, by norm_num [calculate_balances, simRun]⟩).withdrawal
      = ((calculate_balances 100 4 [10, 10] [0, 0] false).get
        ⟨0, by norm_num [calculate_balances, simRun]⟩).balance * (4 / 100) := by
  constructor
  · exact (c5_withdrawal_schedule 100 4 [10, 10] [0, 0] false).1 _
  · exact (c5_withdrawal_schedule 100 4 [10, 10] [0, 0] false).2.1 0 _

/-- C9: the simulator is total — with the equal-length input lists the
program always supplies (both are slices of the same yearly index), it emits
exactly one record per year — and the percentage-change computation of both
implementations is guarded: whenever the post-adjustment balance (the value
the return is applied to) is exactly 0, the emitted percentage change is 0
rather than a division fault. -/
theorem c9_total_guarded :
    (∀ (init rate : ℚ) (rets divs : List ℚ) (rv : Bool), rets.length = divs.length →
      (calculate_balances init rate rets divs rv).length = rets.length) ∧
    (∀ (init rate : ℚ) (rets divs : List ℚ) (rv : Bool), rets.length = divs.length →
      (calculate_balances2 init rate rets divs rv).length = rets.length) ∧
    (∀ (rate : ℚ) (rv first : Bool) (bal r d : ℚ),
      adjustBalance rv bal (if first then 0 else bal * (rate / 100)) (bal * (d / 100)) = 0 →
      (simStep adjustBalance rate rv first bal r d).pctChange = 0) ∧
    (∀ (rate : ℚ) (rv first : Bool) (bal r d : ℚ),
      adjustBalance2 rv bal (if first then 0 else bal * (rate / 100)) (bal * (d / 100)) = 0 →
      (simStep adjustBalance2 rate rv first bal r d).pctChange = 0) := by
  refine ⟨fun init rate rets divs rv h => ?_, fun init rate rets divs rv h => ?_,
    fun rate rv first bal r d h => ?_, fun rate rv first bal r d h => ?_⟩
  · rw [calculate_balances, simRun_length, List.length_zip, h, Nat.min_self]
  · rw [calculate_balances2, simRun_length, List.length_zip, h, Nat.min_self]
  · simp [simStep, h]
  · simp [simStep, h]

/-- C9 (witness): with equal-length one-year inputs both implementations emit
one record, and a step whose running balance is exactly 0 (hence whose
post-adjustment balance is 0) emits percentage change 0. -/
theorem c9_total_guarded_w :
    (calculate_balances 5 4 [10] [2] false).length = 1 ∧
    (calculate_balances2 5 4 [10] [2] false).length = 1 ∧
    (simStep adjustBalance 4 false false 0 10 2).pctChange = 0 ∧
    (simStep adjustBalance2 4 false false 0 10 2).pctChange = 0 := by
  refine ⟨c9_total_guarded.1 5 4 [10] [2] false rfl,
    c9_total_guarded.2.1 5 4 [10] [2] false rfl,
    c9_total_guarded.2.2.1 4 false false 0 10 2 (by norm_num [adjustBalance]),
    c9_total_guarded.2.2.2 4 false false 0 10 2 (by norm_num [adjustBalance2])⟩

/-- C10: with withdrawal rate 0 and reinvestment on, both implementations
emit 0 as the total (withdrawal plus non-reinvested dividend) for every
year of the selected range. -/
theorem c10_rate_zero_totals (init : ℚ) (rets divs : List ℚ) :
    (calculate_balances init 0 rets divs true).map YearRec.total
        = List.replicate (rets.zip divs).length 0 ∧
    (calculate_balances2 init 0 rets divs true).map YearRec.total
        = List.replicate (rets.zip divs).length 0 :=
  ⟨simRun_rate_zero_totals adjustBalance (rets.zip divs) true init,
   simRun_rate_zero_totals adjustBalance2 (rets.zip divs) true init⟩

/-! ### Claim theorems: retry backoff -/

/-- C7 (counterexample): with attempt-varying jitter the rate-limited delay
is not monotone: attempt 0 with jitter 9/10 sleeps 19/5 = 3.8 s while
attempt 1 with jitter 0 sleeps only 3 s, both legal jitters in [0, 1) and
both below the 60 s cap. -/
theorem c7_backoff_cx :
    (0 : ℚ) ≤ 9 / 10 ∧ (9 : ℚ) / 10 < 1 ∧ (0 : ℚ) ≤ 0 ∧ (0 : ℚ) < 1 ∧
    sleepRateLimited 1 0 < sleepRateLimited 0 (9 / 10) ∧
    sleepRateLimited 0 (9 / 10) < 60 := by
  norm_num [sleepRateLimited, sleepTransient, backoffBase]

/-- C7 (amended): the non-rate-limited delay is min(30, 1.5^attempt + jitter)
and is capped at 30 s; the rate-limited delay doubles it and caps at 60 s;
and for any fixed jitter value the rate-limited delay is monotonically
non-decreasing in the attempt number (monotonicity can fail when the jitter
drawn at the later attempt is smaller). -/
theorem c7_backoff_bounds_mono :
    (∀ (a : ℕ) (j : ℚ), sleepTransient a j = min 30 ((3 / 2) ^ a + j)) ∧
    (∀ (a : ℕ) (j : ℚ), sleepTransient a j ≤ 30) ∧
    (∀ (a : ℕ) (j : ℚ), sleepRateLimited a j = min 60 (sleepTransient a j * 2)) ∧
    (∀ (a : ℕ) (j : ℚ), sleepRateLimited a j ≤ 60) ∧
    (∀ (a : ℕ) (j : ℚ), sleepRateLimited a j ≤ sleepRateLimited (a + 1) j) := by
  refine ⟨fun a j => rfl, fun a j => min_le_left _ _, fun a j => rfl,
    fun a j => min_le_left _ _, fun a j => ?_⟩
  have hb : backoffBase a j ≤ backoffBase (a + 1) j := by
    have hp : ((3 : ℚ) / 2) ^ a ≤ (3 / 2) ^ (a + 1) :=
      pow_le_pow_right₀ (by norm_num) (Nat.le_succ a)
    simpa [backoffBase] using add_le_add_right hp j
  have h1 : sleepTransient a j ≤ sleepTransient (a + 1) j :=
    min_le_min le_rfl hb
  exact min_le_min le_rfl (by linarith)

/-! ### Portfolio combiner -/

/-- `sorted union` of two pandas index label lists (`Index.union` returns the
sorted deduplicated union of the labels). -/
def indexUnion (xs ys : List ℤ) : List ℤ := List.insertionSort (· ≤ ·) ((xs ++ ys).dedup)

/-- Value of an annual series at a year label, defaulting to `0` — the
semantics of `Series.reindex(idx, fill_value=0)` at one label. -/
def lookupD (s : List (ℤ × ℚ)) (y : ℤ) : ℚ := (s.lookup y).getD 0

/-- `Series.reindex(idx, fill_value=0)`. -/
def reindexFill (s : List (ℤ × ℚ)) (idx : List ℤ) : List (ℤ × ℚ) :=
  idx.map fun y => (y, lookupD s y)

/-- The two `asset_type` options of the UI. -/
inductive AssetClass where
  | stock
  | crypto
  deriving DecidableEq

/-- One allocation entry as seen by `combine_returns_and_dividends`: the
asset's extracted annual return and dividend-yield series (year-labelled),
its allocation percentage, and its class. -/
structure Asset where
  returns : List (ℤ × ℚ)
  divs : List (ℤ × ℚ)
  allocation : ℚ
  cls : AssetClass

/-- The dividend-yield series used for an asset: for `Crypto` the code builds
a zero series on the return series' index
(`pd.Series([0] * len(annual_returns), index=annual_returns.index)`);
for `Stock` it is the asset's own dividend-yield series. -/
def assetDividendSeries (a : Asset) : List (ℤ × ℚ) :=
  match a.cls with
  | AssetClass.crypto => a.returns.map fun p => (p.1, 0)
  | AssetClass.stock => a.divs

/-- `idx_union = annual_returns.index.union(dividend_yields.index)`
(`src/interactive_chart.py` line 136). -/
def assetIdx (a : Asset) : List ℤ :=
  indexUnion (a.returns.map Prod.fst) ((assetDividendSeries a).map Prod.fst)

/-- The asset's return series reindexed on `idx_union`, zero-filled, and
scaled by `allocation / 100` (lines 137, 141, 144). -/
def weightedRets (a : Asset) : List (ℤ × ℚ) :=
  (assetIdx a).map fun z => (z, lookupD a.returns z * (a.allocation / 100))

/-- The asset's dividend-yield series reindexed on `idx_union`, zero-filled,
and scaled by `allocation / 100` (lines 138, 142, 145). -/
def weightedDivs (a : Asset) : List (ℤ × ℚ) :=
  (assetIdx a).map fun z => (z, lookupD (assetDividendSeries a) z * (a.allocation / 100))

/-- One iteration of the combination loop (`src/interactive_chart.py`
lines 126-152, `src/interactive_chart2.py` lines 126-158): build the
ticker's weighted frame on `idx_union`, reindex the running combined frame
onto the union of its index with the ticker's (zero-filling), reindex the
ticker's frame likewise, and add both columns.  The running combined frame
is a list of rows (year, combined return %, combined dividend-yield %). -/
def combineStep (acc : List (ℤ × ℚ × ℚ)) (a : Asset) : List (ℤ × ℚ × ℚ) :=
  let idxU := assetIdx a
  let rets := reindexFill a.returns idxU
  let divs := reindexFill (assetDividendSeries a) idxU
  let retsW := rets.map fun p => (p.1, p.2 * (a.allocation / 100))
  let divsW := divs.map fun p => (p.1, p.2 * (a.allocation / 100))
  let newIdx := indexUnion (acc.map Prod.fst) idxU
  let accR := newIdx.map fun y =>
    (y, lookupD (acc.map fun t => (t.1, t.2.1)) y, lookupD (acc.map fun t => (t.1, t.2.2)) y)
  accR.map fun t => (t.1, t.2.1 + lookupD retsW t.1, t.2.2 + lookupD divsW t.1)

/-- `combine_returns_and_dividends` of both scripts: a fold of the
combination step over the caller-supplied allocation order, starting from
the empty frame, finished by `sort_index` (a sort on the year key). -/
def combine_returns_and_dividends (assets : List Asset) : List (ℤ × ℚ × ℚ) :=
  List.insertionSort (fun p q => p.1 ≤ q.1) (assets.foldl combineStep [])

/-! ### Generic facts about series and the combiner -/

theorem lookup_map_mk {β : Type} (f : ℤ → β) :
    ∀ (idx : List ℤ) (y : ℤ),
      (idx.map fun z => (z, f z)).lookup y = if y ∈ idx then some (f y) else none := by
  intro idx
  induction idx with
  | nil => intro y; simp
  | cons w ws ih =>
    intro y
    by_cases h : y = w
    · subst h; simp [List.lookup]
    · have hb : (y == w) = false := beq_eq_false_iff_ne.mpr h
      simp [List.lookup, hb, h, ih]

theorem lookupD_map_mk (f : ℤ → ℚ) (idx : List ℤ) (y : ℤ) :
    lookupD (idx.map fun z => (z, f z)) y = if y ∈ idx then f y else 0 := by
  rw [lookupD, lookup_map_mk]
  by_cases h : y ∈ idx <;> simp [h]

theorem map_fst_map_mk {β : Type} (f : ℤ → β) (idx : List ℤ) :
    ((idx.map fun z => (z, f z)).map Prod.fst) = idx := by
  rw [List.map_map]
  exact (List.map_congr_left fun y _ => rfl).trans (List.map_id idx)

/-- Reindexing a series on its own (duplicate-free) label list is the
identity. -/
theorem map_mk_lookupD_self :
    ∀ (s : List (ℤ × ℚ)), (s.map Prod.fst).Nodup →
      ((s.map Prod.fst).map fun y => (y, lookupD s y)) = s := by
  intro s
  induction s with
  | nil => intro _; rfl
  | cons p rest ih =>
    intro hnd
    obtain ⟨y₀, v₀⟩ := p
    rw [List.map_cons, List.nodup_cons] at hnd
    rw [List.map_cons, List.map_cons]
    have hhead : lookupD ((y₀, v₀) :: rest) y₀ = v₀ := by simp [lookupD, List.lookup]
    rw [hhead]
    have htail : ((rest.map Prod.fst).map fun y => (y, lookupD ((y₀, v₀) :: rest) y))
        = (rest.map Prod.fst).map fun y => (y, lookupD rest y) := by
      apply List.map_congr_left
      intro y hy
      have hne : ¬y = y₀ := fun h => hnd.1 (h ▸ hy)
      have hb : (y == y₀) = false := beq_eq_false_iff_ne.mpr hne
      simp [lookupD, List.lookup, hb]
    rw [htail, ih hnd.2]

theorem mem_indexUnion {x : ℤ} {xs ys : List ℤ} :
    x ∈ indexUnion xs ys ↔ x ∈ xs ∨ x ∈ ys := by
  rw [indexUnion, (List.perm_insertionSort _ _).mem_iff, List.mem_dedup, List.mem_append]

theorem indexUnion_nodup (xs ys : List ℤ) : (indexUnion xs ys).Nodup :=
  (List.perm_insertionSort _ _).nodup_iff.mpr (List.nodup_dedup _)

theorem indexUnion_sorted_lt (xs ys : List ℤ) : List.Sorted (· < ·) (indexUnion xs ys) := by
  have hle : List.Sorted (· ≤ ·) (indexUnion xs ys) := List.sorted_insertionSort _ _
  have hnd : (indexUnion xs ys).Nodup := indexUnion_nodup xs ys
  exact (hle.and hnd).imp fun h => lt_of_le_of_ne h.1 h.2

/-- Two strictly sorted lists with the same members are equal. -/
theorem strictSorted_eq_of_mem_iff :
    ∀ {l₁ l₂ : List ℤ}, List.Sorted (· < ·) l₁ → List.Sorted (· < ·) l₂ →
      (∀ a, a ∈ l₁ ↔ a ∈ l₂) → l₁ = l₂ := by
  intro l₁
  induction l₁ with
  | nil =>
    intro l₂ _ _ hmem
    cases l₂ with
    | nil => rfl
    | cons b u => exact absurd ((hmem b).mpr (List.mem_cons_self b u)) (List.not_mem_nil b)
  | cons a t ih =>
    intro l₂ h₁ h₂ hmem
    cases l₂ with
    | nil => exact absurd ((hmem a).mp (List.mem_cons_self a t)) (List.not_mem_nil a)
    | cons b u =>
      rw [List.sorted_cons] at h₁ h₂
      have hab : a = b := by
        rcases List.mem_cons.mp ((hmem a).mp (List.mem_cons_self a t)) with h | ha
        · exact h
        · rcases List.mem_cons.mp ((hmem b).mpr (List.mem_cons_self b u)) with h | hb
          · exact h.symm
          · exact absurd (lt_trans (h₂.1 a ha) (h₁.1 b hb)) (lt_irrefl b)
      subst hab
      have htail : ∀ x, x ∈ t ↔ x ∈ u := by
        intro x
        constructor
        · intro hx
          rcases List.mem_cons.mp ((hmem x).mp (List.mem_cons_of_mem a hx)) with h | h
          · exact absurd (h ▸ h₁.1 x hx) (lt_irrefl x)
          · exact h
        · intro hx
          rcases List.mem_cons.mp ((hmem x).mpr (List.mem_cons_of_mem a hx)) with h | h
          · exact absurd (h ▸ h₂.1 x hx) (lt_irrefl x)
          · exact h
      rw [ih h₁.2 h₂.2 htail]

/-- `indexUnion xs ys = ys` when `xs ⊆ ys` and `ys` is strictly sorted. -/
theorem indexUnion_eq_self {xs ys : List ℤ} (hsub : ∀ x ∈ xs, x ∈ ys)
    (hys : List.Sorted (· < ·) ys) : indexUnion xs ys = ys := by
  refine strictSorted_eq_of_mem_iff (indexUnion_sorted_lt xs ys) hys fun a => ?_
  rw [mem_indexUnion]
  exact ⟨fun h => h.elim (hsub a) id, Or.inr⟩

theorem orderedInsert_map_mk {β : Type} (f : ℤ → β) (z : ℤ) :
    ∀ idx : List ℤ,
      List.orderedInsert (fun p q => p.1 ≤ q.1) (z, f z) (idx.map fun w => (w, f w))
        = (List.orderedInsert (· ≤ ·) z idx).map fun w => (w, f w) := by
  intro idx
  induction idx with
  | nil => simp
  | cons w ws ih =>
    by_cases h : z ≤ w <;> simp [List.orderedInsert, h, ih]

theorem insertionSort_map_mk {β : Type} (f : ℤ → β) :
    ∀ idx : List ℤ,
      List.insertionSort (fun p q => p.1 ≤ q.1) (idx.map fun w => (w, f w))
        = (List.insertionSort (· ≤ ·) idx).map fun w => (w, f w) := by
  intro idx
  induction idx with
  | nil => rfl
  | cons w ws ih => simp only [List.map_cons, List.insertionSort, ih, orderedInsert_map_mk]

/-- The combination step in closed form: a map over the new union index,
adding the zero-filled lookup into the running frame and the zero-filled
lookup into the ticker's weighted series. -/
theorem combineStep_eq (acc : List (ℤ × ℚ × ℚ)) (a : Asset) :
    combineStep acc a = (indexUnion (acc.map Prod.fst) (assetIdx a)).map fun y =>
      (y, lookupD (acc.map fun t => (t.1, t.2.1)) y + lookupD (weightedRets a) y,
          lookupD (acc.map fun t => (t.1, t.2.2)) y + lookupD (weightedDivs a) y) := by
  simp only [combineStep, reindexFill, weightedRets, weightedDivs, List.map_map]
  rfl

/-- The first combination step, from the empty frame. -/
theorem combineStep_nil (a : Asset) :
    combineStep [] a = (indexUnion [] (assetIdx a)).map fun y =>
      (y, lookupD (weightedRets a) y, lookupD (weightedDivs a) y) := by
  rw [combineStep_eq]
  simp only [List.map_nil, lookupD, List.lookup_nil, Option.getD_none, zero_add]

/-! ### Claim theorems: portfolio combiner -/

/-- C4 (counterexample): combining a single 100% Stock asset need not return
the asset's series over the same years: with non-empty return series
[(2001, 5)] and dividend series [(2000, 1), (2001, 2)], the combined frame
covers years [2000, 2001] — the union of the two indexes, with a zero-filled
return for 2000 — so the combined return series is not the asset's return
series over the same set of years. -/
theorem c4_single_asset_cx :
    (combine_returns_and_dividends
        [⟨[((2001 : ℤ), (5 : ℚ))], [(2000, 1), (2001, 2)], 100, AssetClass.stock⟩]).map
      (fun t => t.1) = [2000, 2001] ∧
    ([2000, 2001] : List ℤ) ≠ [2001] ∧
    ([((2001 : ℤ), (5 : ℚ))] : List (ℤ × ℚ)) ≠ [] ∧
    ([((2000 : ℤ), (1 : ℚ)), (2001, 2)] : List (ℤ × ℚ)) ≠ [] := by
  refine ⟨by decide, by decide, by simp, by simp⟩

/-- C4 (amended): combining a single Stock asset at 100% allocation is the
identity whenever the asset's return and dividend-yield series are indexed
by the same (strictly increasing) years — the shape `AnnualAssetSeries`
guarantees; when the two indexes differ, the combined frame lives on their
union with zero fill. -/
theorem c4_single_asset_identity (a : Asset)
    (hcls : a.cls = AssetClass.stock)
    (halloc : a.allocation = 100)
    (hkeys : a.returns.map Prod.fst = a.divs.map Prod.fst)
    (hsorted : List.Sorted (· < ·) (a.returns.map Prod.fst))
    (hne : a.returns ≠ []) :
    (combine_returns_and_dividends [a]).map (fun t => (t.1, t.2.1)) = a.returns ∧
    (combine_returns_and_dividends [a]).map (fun t => (t.1, t.2.2)) = a.divs := by
  have hdiv : assetDividendSeries a = a.divs := by
    rw [assetDividendSeries, hcls]
  have hidx : assetIdx a = a.returns.map Prod.fst := by
    rw [assetIdx, hdiv, ← hkeys]
    exact indexUnion_eq_self (fun x hx => hx) hsorted
  have hnodup : (a.returns.map Prod.fst).Nodup := hsorted.imp fun h => ne_of_lt h
  have hidxnil : indexUnion [] (assetIdx a) = a.returns.map Prod.fst := by
    rw [hidx]
    exact indexUnion_eq_self (fun x hx => absurd hx (List.not_mem_nil x)) hsorted
  have hstep : combineStep [] a = (a.returns.map Prod.fst).map fun y =>
      (y, lookupD a.returns y, lookupD a.divs y) := by
    rw [combineStep_nil, hidxnil]
    apply List.map_congr_left
    intro y hy
    have hyi : y ∈ assetIdx a := hidx ▸ hy
    have h1 : lookupD (weightedRets a) y = lookupD a.returns y := by
      rw [weightedRets, lookupD_map_mk, if_pos hyi, halloc]
      norm_num
    have h2 : lookupD (weightedDivs a) y = lookupD a.divs y := by
      rw [weightedDivs, lookupD_map_mk, if_pos hyi, halloc, hdiv]
      norm_num
    rw [h1, h2]
  have hle : List.Sorted (· ≤ ·) (a.returns.map Prod.fst) := hsorted.imp fun h => le_of_lt h
  have hcomb : combine_returns_and_dividends [a]
      = (a.returns.map Prod.fst).map fun y => (y, lookupD a.returns y, lookupD a.divs y) := by
    rw [combine_returns_and_dividends, List.foldl_cons, List.foldl_nil, hstep,
      insertionSort_map_mk, hle.insertionSort_eq]
  constructor
  · rw [hcomb, List.map_map]
    exact map_mk_lookupD_self a.returns hnodup
  · rw [hcomb, List.map_map]
    have hnodup2 : (a.divs.map Prod.fst).Nodup := hkeys ▸ hnodup
    calc ((a.returns.map Prod.fst).map fun y =>
            ((fun t : ℤ × ℚ × ℚ => (t.1, t.2.2)) (y, lookupD a.returns y, lookupD a.divs y)))
        = (a.divs.map Prod.fst).map fun y => (y, lookupD a.divs y) := by rw [hkeys]
      _ = a.divs := map_mk_lookupD_self a.divs hnodup2

/-- C4 (witness): a two-year Stock asset with matching return and dividend
indexes at 100% allocation passes through `combine_returns_and_dividends`
unchanged. -/
theorem c4_single_asset_identity_w :
    (combine_returns_and_dividends
        [⟨[((2000 : ℤ), (5 : ℚ)), (2001, 7)], [(2000, 1), (2001, 2)], 100, AssetClass.stock⟩]).map
      (fun t => (t.1, t.2.1)) = [((2000 : ℤ), (5 : ℚ)), (2001, 7)] ∧
    (combine_returns_and_dividends
        [⟨[((2000 : ℤ), (5 : ℚ)), (2001, 7)], [(2000, 1), (2001, 2)], 100, AssetClass.stock⟩]).map
      (fun t => (t.1, t.2.2)) = [((2000 : ℤ), (1 : ℚ)), (2001, 2)] :=
  c4_single_asset_identity
    ⟨[((2000 : ℤ), (5 : ℚ)), (2001, 7)], [(2000, 1), (2001, 2)], 100, AssetClass.stock⟩
    rfl rfl rfl (by decide) (by simp)

/-- C6: with two assets of weight 50 whose year ranges are disjoint, a year
carried only by asset A gets combined return `0.5 * A.return(y)`: B's
zero-filled contribution is included, the year is kept (not excluded), and
A's return is not taken alone. -/
theorem c6_disjoint_half_weight (A B : Asset) (y : ℤ)
    (hA : A.allocation = 50) (hB : B.allocation = 50)
    (hdisj : ∀ z ∈ assetIdx A, z ∉ assetIdx B)
    (hy : y ∈ A.returns.map Prod.fst) :
    lookupD ((combine_returns_and_dividends [A, B]).map fun t => (t.1, t.2.1)) y
      = lookupD A.returns y * (50 / 100) ∧
    y ∈ (combine_returns_and_dividends [A, B]).map Prod.fst := by
  have hyA : y ∈ assetIdx A := by
    rw [assetIdx, mem_indexUnion]
    exact Or.inl hy
  have hyB : y ∉ assetIdx B := hdisj y hyA
  have hyIA : y ∈ indexUnion [] (assetIdx A) := mem_indexUnion.mpr (Or.inr hyA)
  have hkeys1 : (combineStep [] A).map Prod.fst = indexUnion [] (assetIdx A) := by
    rw [combineStep_nil]
    exact map_fst_map_mk _ _
  have hproj1 : (combineStep [] A).map (fun t => (t.1, t.2.1))
      = (indexUnion [] (assetIdx A)).map fun w => (w, lookupD (weightedRets A) w) := by
    rw [combineStep_nil, List.map_map]
    rfl
  have hproj2 : (combineStep [] A).map (fun t => (t.1, t.2.2))
      = (indexUnion [] (assetIdx A)).map fun w => (w, lookupD (weightedDivs A) w) := by
    rw [combineStep_nil, List.map_map]
    rfl
  have hstep2 : combineStep (combineStep [] A) B
      = (indexUnion (indexUnion [] (assetIdx A)) (assetIdx B)).map fun z =>
          (z, lookupD ((indexUnion [] (assetIdx A)).map fun w =>
                (w, lookupD (weightedRets A) w)) z + lookupD (weightedRets B) z,
              lookupD ((indexUnion [] (assetIdx A)).map fun w =>
                (w, lookupD (weightedDivs A) w)) z + lookupD (weightedDivs B) z) := by
    rw [combineStep_eq, hkeys1, hproj1, hproj2]
  have hfold : combine_returns_and_dividends [A, B]
      = (List.insertionSort (· ≤ ·) (indexUnion (indexUnion [] (assetIdx A)) (assetIdx B))).map
          fun z =>
          (z, lookupD ((indexUnion [] (assetIdx A)).map fun w =>
                (w, lookupD (weightedRets A) w)) z + lookupD (weightedRets B) z,
              lookupD ((indexUnion [] (assetIdx A)).map fun w =>
                (w, lookupD (weightedDivs A) w)) z + lookupD (weightedDivs B) z) := by
    rw [combine_returns_and_dividends, List.foldl_cons, List.foldl_cons, List.foldl_nil, hstep2,
      insertionSort_map_mk]
  have hmemS : y ∈ List.insertionSort (· ≤ ·)
      (indexUnion (indexUnion [] (assetIdx A)) (assetIdx B)) := by
    rw [(List.perm_insertionSort _ _).mem_iff, mem_indexUnion]
    exact Or.inl hyIA
  constructor
  · rw [hfold, List.map_map]
    show lookupD ((List.insertionSort (· ≤ ·)
        (indexUnion (indexUnion [] (assetIdx A)) (assetIdx B))).map fun z =>
          (z, lookupD ((indexUnion [] (assetIdx A)).map fun w =>
                (w, lookupD (weightedRets A) w)) z + lookupD (weightedRets B) z)) y
      = lookupD A.returns y * (50 / 100)
    rw [lookupD_map_mk, if_pos hmemS, lookupD_map_mk, if_pos hyIA,
      weightedRets, lookupD_map_mk, if_pos hyA, hA,
      weightedRets, lookupD_map_mk, if_neg hyB, add_zero]
  · rw [hfold, map_fst_map_mk]
    exact hmemS

/-- C6 (witness): assets with return series [(2000, 10)] and [(2005, 8)],
disjoint year ranges and both at weight 50: the combined return for 2000 is
10 * 50/100 = 5, and the year 2000 is present in the combined frame. -/
theorem c6_disjoint_half_weight_w :
    lookupD ((combine_returns_and_dividends
        [⟨[((2000 : ℤ), (10 : ℚ))], [(2000, 4)], 50, AssetClass.stock⟩,
         ⟨[((2005 : ℤ), (8 : ℚ))], [(2005, 1)], 50, AssetClass.stock⟩]).map
      fun t => (t.1, t.2.1)) 2000
      = lookupD [((2000 : ℤ), (10 : ℚ))] 2000 * (50 / 100) ∧
    (2000 : ℤ) ∈ (combine_returns_and_dividends
        [⟨[((2000 : ℤ), (10 : ℚ))], [(2000, 4)], 50, AssetClass.stock⟩,
         ⟨[((2005 : ℤ), (8 : ℚ))], [(2005, 1)], 50, AssetClass.stock⟩]).map Prod.fst :=
  c6_disjoint_half_weight
    ⟨[((2000 : ℤ), (10 : ℚ))], [(2000, 4)], 50, AssetClass.stock⟩
    ⟨[((2005 : ℤ), (8 : ℚ))], [(2005, 1)], 50, AssetClass.stock⟩
    2000 rfl rfl (by decide) (by decide)

/-! ### Fetch-button handler (empty-ticker guard) -/

/-- The per-ticker data the extraction layer would return for a symbol:
annual return and dividend-yield series. -/
structure AssetData where
  returns : List (ℤ × ℚ)
  divs : List (ℤ × ℚ)

/-- Builds the combiner's input for one `(ticker, allocation, asset_type)`
triple from the data environment (the net effect of
`get_annual_returns` / `get_crypto_annual_returns` for that symbol). -/
def assetOfTriple (env : String → AssetClass → AssetData)
    (t : String × ℚ × AssetClass) : Asset :=
  ⟨(env t.1 t.2.2).returns, (env t.1 t.2.2).divs, t.2.1, t.2.2⟩

/-- The number of per-ticker lookups a combination run performs: the loop of
`combine_returns_and_dividends` calls `get_annual_returns` or
`get_crypto_annual_returns` (each invoking `fetch_history`, i.e. `yf.Ticker`)
exactly once per allocation triple it iterates over. -/
def combineFetchCalls (triples : List (String × ℚ × AssetClass)) : ℕ := triples.length

/-- Outcome surfaced to the user by the fetch flow. -/
inductive FetchOutcome where
  | invalidInput
  | noData
  | ok (combined : List (ℤ × ℚ × ℚ))
  deriving DecidableEq

/-- `clean = [(t, a, ty) for t, a, ty in zip(...) if t]`
(`src/interactive_chart.py` line 203): the triples whose ticker string is
non-empty (Python string truthiness). -/
def cleanTriples (tickers : List String) (allocs : List ℚ) (classes : List AssetClass) :
    List (String × ℚ × AssetClass) :=
  (tickers.zip (allocs.zip classes)).filter fun t => t.1 != ""

/-- The `fetch_clicked` handler of `src/interactive_chart.py`
(lines 201-221): if no non-empty ticker remains the handler stores the
"Enter at least one ticker." error (`InvalidInput`) and the combination loop
— hence any per-ticker lookup — is never entered; otherwise it combines the
cleaned triples and reports no-data when the combined frame is empty.  The
second component counts the per-ticker lookups performed. -/
def fetchClicked (env : String → AssetClass → AssetData) (tickers : List String)
    (allocs : List ℚ) (classes : List AssetClass) : FetchOutcome × ℕ :=
  if cleanTriples tickers allocs classes = [] then (FetchOutcome.invalidInput, 0)
  else
    let clean := cleanTriples tickers allocs classes
    let combined := combine_returns_and_dividends (clean.map (assetOfTriple env))
    if combined = [] then (FetchOutcome.noData, combineFetchCalls clean)
    else (FetchOutcome.ok combined, combineFetchCalls clean)

/-- The top-level flow of `src/interactive_chart2.py` (lines 210-217): no
button and no filtering — `combine_returns_and_dividends` is called on the
raw ticker list (empty strings included), and an empty combined frame is
reported as "No data available", never as an invalid-input error. -/
def chart2Run (env : String → AssetClass → AssetData) (tickers : List String)
    (allocs : List ℚ) (classes : List AssetClass) : FetchOutcome × ℕ :=
  let triples := tickers.zip (allocs.zip classes)
  let combined := combine_returns_and_dividends (triples.map (assetOfTriple env))
  (if combined = [] then FetchOutcome.noData else FetchOutcome.ok combined,
    combineFetchCalls triples)

/-- C8 (counterexample): in `interactive_chart2.py` an allocation list with
no non-empty ticker does not surface an invalid-input error before fetching:
with the single ticker `""` the flow performs one per-ticker lookup (not
zero) and surfaces the no-data error. -/
theorem c8_invalid_input_cx :
    (chart2Run (fun _ _ => ⟨[], []⟩) [""] [100] [AssetClass.stock]).2 = 1 ∧
    (chart2Run (fun _ _ => ⟨[], []⟩) [""] [100] [AssetClass.stock]).1 = FetchOutcome.noData ∧
    (1 : ℕ) ≠ 0 := by
  refine ⟨rfl, ?_, by simp⟩
  rfl

/-- C8 (amended): the click handler of `interactive_chart.py` surfaces the
invalid-input error with zero per-ticker lookups whenever every supplied
ticker is empty, whatever the data environment; `interactive_chart2.py` has
no such guard and performs a lookup even for an empty ticker string. -/
theorem c8_invalid_input_guard (env : String → AssetClass → AssetData)
    (tickers : List String) (allocs : List ℚ) (classes : List AssetClass)
    (h : ∀ t ∈ tickers, t = "") :
    fetchClicked env tickers allocs classes = (FetchOutcome.invalidInput, 0) := by
  have hclean : cleanTriples tickers allocs classes = [] := by
    rw [cleanTriples, List.filter_eq_nil_iff]
    intro t ht
    have h1 : t.1 ∈ tickers := (List.of_mem_zip ht).1
    have h2 : t.1 = "" := h t.1 h1
    simp [h2]
  rw [fetchClicked, if_pos hclean]

/-- C8 (witness): two empty tickers, any allocations and classes, an
environment with no data: the handler reports invalid input and performs
zero lookups. -/
theorem c8_invalid_input_guard_w :
    fetchClicked (fun _ _ => ⟨[], []⟩) ["", ""] [50, 50]
      [AssetClass.stock, AssetClass.crypto] = (FetchOutcome.invalidInput, 0) :=
  c8_invalid_input_guard (fun _ _ => ⟨[], []⟩) ["", ""] [50, 50]
    [AssetClass.stock, AssetClass.crypto] (by decide)
